import Mathlib

/-!
Shallow embedding of the warsawjs-stock-exchange matching core
(`Offer`, `Trade`, `OfferTable`) and verification of its specification.

Numeric values (big.js arbitrary-precision decimals) are modelled as
rationals; big.js arithmetic on decimals is exact, and the only rounding
the code performs is the explicit `round(dp, 1)` calls, modelled below.
-/

/-!
## Definitions: the shallow embedding of the source
-/

/-- Big.js `x.round(dp, 1)` : round to `dp` decimal places, rounding-mode 1
(ROUND_HALF_UP: towards nearest neighbour, ties away from zero). -/
def bigRound (dp : ℕ) (x : ℚ) : ℚ :=
  if 0 ≤ x then ((x * 10 ^ dp + 1 / 2).floor : ℚ) / 10 ^ dp
  else -(((-x * 10 ^ dp + 1 / 2).floor : ℚ) / 10 ^ dp)

/-- Big.js `min` from src/lib/utils/math.js: `if (a.lt(b)) return a; else return b`. -/
def bigMin (a b : ℚ) : ℚ :=
  if a < b then a else b

/-- A rational is representable at `dp` decimal places. -/
def FixedAt (dp : ℕ) (x : ℚ) : Prop :=
  ∃ n : ℤ, x = n / 10 ^ dp

structure Offer where
  instrumentCode : String
  type : String
  date : ℕ
  price : ℚ
  quantity : ℚ
  remainingQuantity : ℚ
deriving DecidableEq

/-- The set `Offer.types = new Set(['purchase', 'sale'])`. -/
def Offer.validType (type : String) : Prop :=
  type = "purchase" ∨ type = "sale"

instance (type : String) : Decidable (Offer.validType type) := by
  unfold Offer.validType
  infer_instance

/-- The field coercions applied by the `Offer` constructor: models
`new Offer(fields)` applied to the fields of an already-constructed offer
(whose `type` is known valid), as done by `Trade`'s constructor and by
`OfferTable._performTrade`. -/
def Offer.coerce (o : Offer) : Offer :=
  { o with
    instrumentCode := o.instrumentCode.toUpper
    price := bigRound 2 o.price
    quantity := bigRound 0 o.quantity
    remainingQuantity := bigRound 0 o.remainingQuantity }

/-- `new Offer({ instrumentCode, type, date, price, quantity, remainingQuantity })`
with `remainingQuantity` optional (defaulting to `quantity`): throws
`Invalid offer type.` when `type` is not in `Offer.types`, otherwise
upper-cases the instrument code and rounds the numeric fields. -/
def Offer.make (instrumentCode : String) (type : String) (date : ℕ)
    (price quantity : ℚ) (remainingQuantity : Option ℚ) : Except String Offer :=
  if Offer.validType type then
    .ok
      { instrumentCode := instrumentCode.toUpper
        type := type
        date := date
        price := bigRound 2 price
        quantity := bigRound 0 quantity
        remainingQuantity := bigRound 0 (remainingQuantity.getD quantity) }
  else
    .error "Invalid offer type."

/-- `Trade` models the `Trade` class: price rounded to 2 dp, quantity to
0 dp, and the two participating offers cast/copied through the `Offer`
constructor. -/
structure Trade where
  price : ℚ
  quantity : ℚ
  purchase : Offer
  sale : Offer
deriving DecidableEq

/-- `new Trade({ purchase, sale, quantity, price })`. -/
def Trade.make (purchase sale : Offer) (quantity price : ℚ) : Trade :=
  { price := bigRound 2 price
    quantity := bigRound 0 quantity
    purchase := purchase.coerce
    sale := sale.coerce }

/-- `OfferTable` state: the two offer lists (the event-emitter machinery
carries no further matching state; emitted trades are returned explicitly
by `addOffer` below, in emission order). -/
structure OfferTable where
  instrumentCode : String
  saleOffers : List Offer
  purchaseOffers : List Offer
deriving DecidableEq

/-- `new OfferTable({ instrumentCode })`. -/
def OfferTable.empty (instrumentCode : String) : OfferTable :=
  { instrumentCode := instrumentCode, saleOffers := [], purchaseOffers := [] }

/-- `OfferTable._addPurchaseOffer`: insert before the first existing offer
with a strictly lower price (`findIndex` + `splice`), or push at the end
when there is none. -/
def insertPurchaseOffer (offer : Offer) : List Offer → List Offer
  | [] => [offer]
  | existing :: rest =>
    if existing.price < offer.price then offer :: existing :: rest
    else existing :: insertPurchaseOffer offer rest

/-- `OfferTable._addSaleOffer`: insert before the first existing offer with
a strictly higher price, or push at the end when there is none. -/
def insertSaleOffer (offer : Offer) : List Offer → List Offer
  | [] => [offer]
  | existing :: rest =>
    if offer.price < existing.price then offer :: existing :: rest
    else existing :: insertSaleOffer offer rest

/-- The purchase branch of `OfferTable._findTrades`: scan the sale offers
from the head while `saleOffers[i].price.lte(offer.price)` and the running
`remainingQuantity.gt(0)`, trading `min(remainingQuantity,
saleOffers[i].remainingQuantity)` at the resting offer's price. -/
def findTradesPurchase (offer : Offer) (rem : ℚ) : List Offer → List Trade
  | [] => []
  | s :: rest =>
    if s.price ≤ offer.price ∧ 0 < rem then
      Trade.make offer s (bigMin rem s.remainingQuantity) s.price ::
        findTradesPurchase offer (rem - bigMin rem s.remainingQuantity) rest
    else []

/-- The sale branch of `OfferTable._findTrades`: scan the purchase offers
from the head while `purchaseOffers[i].price.gte(offer.price)` and the
running `remainingQuantity.gt(0)`. -/
def findTradesSale (offer : Offer) (rem : ℚ) : List Offer → List Trade
  | [] => []
  | p :: rest =>
    if offer.price ≤ p.price ∧ 0 < rem then
      Trade.make p offer (bigMin rem p.remainingQuantity) p.price ::
        findTradesSale offer (rem - bigMin rem p.remainingQuantity) rest
    else []

/-- `OfferTable._findTrades`. -/
def findTrades (offer : Offer) (tbl : OfferTable) : List Trade :=
  if offer.type = "purchase" then
    findTradesPurchase offer offer.remainingQuantity tbl.saleOffers
  else
    findTradesSale offer offer.remainingQuantity tbl.purchaseOffers

/-- `arr[0] = x` in JS: overwrite the head, or create it when the array is
empty. -/
def setHead (x : Offer) : List Offer → List Offer
  | [] => [x]
  | _ :: rest => x :: rest

/-- `OfferTable._performTrade`: rebuild both sides' head offers from the
trade's snapshots (through the `Offer` constructor), removing a head whose
new remaining quantity is zero (`splice(0, 1)`) and overwriting it
otherwise. -/
def performTrade (tbl : OfferTable) (trade : Trade) : OfferTable :=
  let newPurchase := Offer.coerce
    { trade.purchase with
      remainingQuantity := trade.purchase.remainingQuantity - trade.quantity }
  let purchaseOffers' :=
    if newPurchase.remainingQuantity = 0 then tbl.purchaseOffers.drop 1
    else setHead newPurchase tbl.purchaseOffers
  let newSale := Offer.coerce
    { trade.sale with
      remainingQuantity := trade.sale.remainingQuantity - trade.quantity }
  let saleOffers' :=
    if newSale.remainingQuantity = 0 then tbl.saleOffers.drop 1
    else setHead newSale tbl.saleOffers
  { tbl with purchaseOffers := purchaseOffers', saleOffers := saleOffers' }

/-- `OfferTable.addOffer`: unconditionally insert the offer into its side's
list, compute the applicable trades against the opposite side, then apply
them in order.  Returns the new table together with the emitted trades in
emission order. -/
def addOffer (tbl : OfferTable) (offer : Offer) : OfferTable × List Trade :=
  let inserted :=
    if offer.type = "purchase" then
      { tbl with purchaseOffers := insertPurchaseOffer offer tbl.purchaseOffers }
    else
      { tbl with saleOffers := insertSaleOffer offer tbl.saleOffers }
  let applicableTrades := findTrades offer inserted
  (applicableTrades.foldl performTrade inserted, applicableTrades)

/-- Run a sequence of `addOffer` calls. -/
def runAdds (tbl : OfferTable) : List Offer → OfferTable
  | [] => tbl
  | o :: os => runAdds (addOffer tbl o).1 os

/-- Numeric view of an offer list: price and remaining quantity of each
entry, in order. -/
def bookView (offers : List Offer) : List (ℚ × ℚ) :=
  offers.map fun o => (o.price, o.remainingQuantity)

/-- Numeric view of a trade list: price and quantity of each trade, in
emission order. -/
def tradeView (trades : List Trade) : List (ℚ × ℚ) :=
  trades.map fun t => (t.price, t.quantity)

/-- §8 scenario, offer 1: Purchase(price=100, qty=5). -/
def specP1 : Offer :=
  { instrumentCode := "X", type := "purchase", date := 0
    price := 100, quantity := 5, remainingQuantity := 5 }

/-- §8 scenario, offer 2: Purchase(price=98, qty=200). -/
def specP2 : Offer :=
  { instrumentCode := "X", type := "purchase", date := 1
    price := 98, quantity := 200, remainingQuantity := 200 }

/-- §8 scenario, offer 3: Sale(price=120, qty=504). -/
def specS1 : Offer :=
  { instrumentCode := "X", type := "sale", date := 2
    price := 120, quantity := 504, remainingQuantity := 504 }

/-- §8 scenario, offer 4: Sale(price=100, qty=4). -/
def specS2 : Offer :=
  { instrumentCode := "X", type := "sale", date := 3
    price := 100, quantity := 4, remainingQuantity := 4 }

/-- §8 scenario, offer 5: Sale(price=90, qty=3). -/
def specS3 : Offer :=
  { instrumentCode := "X", type := "sale", date := 4
    price := 90, quantity := 3, remainingQuantity := 3 }

/-- The book after the first four §8 calls. -/
def specTable4 : OfferTable :=
  runAdds (OfferTable.empty "X") [specP1, specP2, specS1, specS2]

/-- The purchase@100 offer as it rests after §8 call 4: rebuilt by
`_performTrade` through the `Offer` constructor, after having been
snapshotted into the trade through the `Trade` constructor: the instrument
code has been upper-cased twice and the remaining quantity is 1. -/
def specP1rest : Offer :=
  { instrumentCode := "X".toUpper.toUpper, type := "purchase", date := 0
    price := 100, quantity := 5, remainingQuantity := 1 }

/-- The fifth §8 call: `addOffer` of Sale(price=90, qty=3) on `specTable4`. -/
def specCall5 : OfferTable × List Trade :=
  addOffer specTable4 specS3

/-- Sort-violation input, offer 1: Sale(price=2, qty=3). -/
def c4a : Offer :=
  { instrumentCode := "X", type := "sale", date := 0
    price := 2, quantity := 3, remainingQuantity := 3 }

/-- Sort-violation input, offer 2: Sale(price=1, qty=1). -/
def c4b : Offer :=
  { instrumentCode := "X", type := "sale", date := 1
    price := 1, quantity := 1, remainingQuantity := 1 }

/-- Sort-violation input, offer 3: Sale(price=3, qty=3). -/
def c4c : Offer :=
  { instrumentCode := "X", type := "sale", date := 2
    price := 3, quantity := 3, remainingQuantity := 3 }

/-- Sort-violation input, offer 4: Purchase(price=4, qty=2). -/
def c4d : Offer :=
  { instrumentCode := "X", type := "purchase", date := 3
    price := 4, quantity := 2, remainingQuantity := 2 }

/-- Sort-violation input, offer 5: Sale(price=4, qty=2). -/
def c4e : Offer :=
  { instrumentCode := "X", type := "sale", date := 4
    price := 4, quantity := 2, remainingQuantity := 2 }

/-- The five-offer sequence exhibiting the sort-invariant violation. -/
def c4seq : List Offer := [c4a, c4b, c4c, c4d, c4e]

/-- A sale offer submitted with quantity 0 (it rounds to remaining 0). -/
def zeroSale : Offer :=
  { instrumentCode := "X", type := "sale", date := 0
    price := 90, quantity := 0, remainingQuantity := 0 }

/-- The book after adding only `zeroSale`. -/
def afterZeroSale : OfferTable :=
  (addOffer (OfferTable.empty "X") zeroSale).1

/-- A purchase whose price crosses `zeroSale`. -/
def crossingBuyer : Offer :=
  { instrumentCode := "X", type := "purchase", date := 1
    price := 100, quantity := 5, remainingQuantity := 5 }

/-- An offer whose numeric fields are representable at the precision the
`Offer` constructor enforces (2 decimal places for the price, whole units
for the quantities). -/
def Offer.WellRounded (o : Offer) : Prop :=
  FixedAt 2 o.price ∧ FixedAt 0 o.quantity ∧ FixedAt 0 o.remainingQuantity

/-- Every offer resting in the table is well rounded. -/
def OfferTable.WellRounded (tbl : OfferTable) : Prop :=
  (∀ o ∈ tbl.saleOffers, o.WellRounded) ∧
    ∀ o ∈ tbl.purchaseOffers, o.WellRounded

/-- Total quantity of the first `k` trades of a list. -/
def tradedBefore (ts : List Trade) (k : ℕ) : ℚ :=
  ((ts.take k).map Trade.quantity).sum

/-- The opposite side scanned during matching for a given incoming offer. -/
def oppList (tbl : OfferTable) (offer : Offer) : List Offer :=
  if offer.type = "purchase" then tbl.saleOffers else tbl.purchaseOffers

/-- The incoming offer's own side of the book. -/
def sideList (tbl : OfferTable) (offer : Offer) : List Offer :=
  if offer.type = "purchase" then tbl.purchaseOffers else tbl.saleOffers

/-- The trade's snapshot of the incoming (aggressor) offer. -/
def aggressorSnap (offer : Offer) (t : Trade) : Offer :=
  if offer.type = "purchase" then t.purchase else t.sale

/-- The trade's snapshot of the matched resting offer. -/
def restingSnap (offer : Offer) (t : Trade) : Offer :=
  if offer.type = "purchase" then t.sale else t.purchase

/-- The inclusive price-crossing condition between the incoming offer and a
resting opposite offer. -/
def crossingCond (offer resting : Offer) : Prop :=
  if offer.type = "purchase" then resting.price ≤ offer.price
  else offer.price ≤ resting.price

/-- The incoming offer's remaining quantity sought just before trade `k`
of its call: remaining at submission minus the quantities of the earlier
trades. -/
def remainingBefore (offer : Offer) (ts : List Trade) (k : ℕ) : ℚ :=
  offer.remainingQuantity - tradedBefore ts k

/-!
## Theorems
-/

theorem ratFloor_eq_intFloor (q : ℚ) : q.floor = ⌊q⌋ := by
  rw [Rat.floor_def', Rat.floor_def]

theorem bigRound_eq_floor (dp : ℕ) (x : ℚ) :
    bigRound dp x =
      if 0 ≤ x then (⌊x * 10 ^ dp + 1 / 2⌋ : ℚ) / 10 ^ dp
      else -((⌊-x * 10 ^ dp + 1 / 2⌋ : ℚ) / 10 ^ dp) := by
  unfold bigRound
  rw [ratFloor_eq_intFloor, ratFloor_eq_intFloor]

theorem bigMin_eq_min (a b : ℚ) : bigMin a b = min a b := by
  unfold bigMin
  rcases lt_or_ge a b with h | h
  · rw [if_pos h, min_eq_left h.le]
  · rw [if_neg (not_lt.mpr h), min_eq_right h]

theorem floor_intCast_add_half (n : ℤ) : ⌊(n : ℚ) + 1 / 2⌋ = n := by
  rw [add_comm, Int.floor_add_int]
  norm_num

theorem bigRound_of_fixedAt {dp : ℕ} {x : ℚ} (h : FixedAt dp x) :
    bigRound dp x = x := by
  obtain ⟨n, rfl⟩ := h
  have hpow : (0 : ℚ) < 10 ^ dp := by positivity
  rw [bigRound_eq_floor]
  by_cases hx : 0 ≤ (n : ℚ) / 10 ^ dp
  · rw [if_pos hx, div_mul_cancel₀ _ hpow.ne', floor_intCast_add_half]
  · have hmul : -((n : ℚ) / 10 ^ dp) * 10 ^ dp = ((-n : ℤ) : ℚ) := by
      push_cast
      rw [neg_mul, div_mul_cancel₀ _ hpow.ne']
    rw [if_neg hx, hmul, floor_intCast_add_half]
    push_cast
    ring

theorem fixedAt_bigRound (dp : ℕ) (x : ℚ) : FixedAt dp (bigRound dp x) := by
  rw [bigRound_eq_floor]
  by_cases hx : 0 ≤ x
  · exact ⟨⌊x * 10 ^ dp + 1 / 2⌋, by rw [if_pos hx]⟩
  · exact ⟨-⌊-x * 10 ^ dp + 1 / 2⌋, by rw [if_neg hx]; push_cast; rw [neg_div]⟩

theorem bigRound_idem (dp : ℕ) (x : ℚ) :
    bigRound dp (bigRound dp x) = bigRound dp x :=
  bigRound_of_fixedAt (fixedAt_bigRound dp x)

theorem fixedAt_sub {dp : ℕ} {a b : ℚ} (ha : FixedAt dp a) (hb : FixedAt dp b) :
    FixedAt dp (a - b) := by
  obtain ⟨n, rfl⟩ := ha
  obtain ⟨m, rfl⟩ := hb
  exact ⟨n - m, by push_cast; ring⟩

theorem fixedAt_min {dp : ℕ} {a b : ℚ} (ha : FixedAt dp a) (hb : FixedAt dp b) :
    FixedAt dp (min a b) := by
  rcases min_choice a b with h | h <;> rw [h] <;> assumption

example : bigRound 2 (100999 / 1000) = 101 := by
  rw [bigRound_eq_floor]
  norm_num

example : bigRound 0 (7 / 2) = 4 := by
  rw [bigRound_eq_floor]
  norm_num

example : bigRound 2 (100 : ℚ) = 100 := by
  rw [bigRound_eq_floor]
  norm_num

theorem sale_ne_purchase : (("sale" : String) = "purchase") ↔ False := by
  simp

theorem purchase_eq_purchase : (("purchase" : String) = "purchase") ↔ True := by
  simp

theorem specTable4_eq :
    specTable4 =
      { instrumentCode := "X", saleOffers := [specS1]
        purchaseOffers := [specP1rest, specP2] } := by
  norm_num [specTable4, runAdds, addOffer, findTrades, findTradesPurchase,
    findTradesSale, insertPurchaseOffer, insertSaleOffer, performTrade,
    setHead, Trade.make, Offer.coerce, bigMin, bigRound_eq_floor,
    OfferTable.empty, specP1, specP2, specS1, specS2, specP1rest,
    sale_ne_purchase, purchase_eq_purchase]

/-- Claim C1 (quantity conservation) fails on the code at the §8 input:
in the fifth call the emitted trades' quantities sum to 3, the incoming
sale's whole remaining quantity at submission, yet the book still records
the incoming sale@90 with remaining quantity 1 instead of 3 - 3 = 0. -/
theorem claim_C1_quantity_conservation_fails :
    ((specCall5.2.map Trade.quantity).sum = 3 ∧ specS3.remainingQuantity = 3) ∧
    bookView specCall5.1.saleOffers = [(90, 1), (120, 504)] ∧
    ¬ ((90 : ℚ), (3 : ℚ) - 3) ∈ bookView specCall5.1.saleOffers := by
  rw [specCall5, specTable4_eq]
  norm_num [addOffer, findTrades, findTradesPurchase, findTradesSale,
    insertPurchaseOffer, insertSaleOffer, performTrade, setHead, Trade.make,
    Offer.coerce, bigMin, bigRound_eq_floor, bookView, specP1rest, specP2,
    specS1, specS3, sale_ne_purchase, purchase_eq_purchase]

/-- Claim C2 (§8 scenario) fails on the code: the fifth `addOffer` does
emit exactly Trade{price=100, quantity=1} then Trade{price=98, quantity=2},
and the final purchase side is exactly purchase@98 remaining 198, but the
sale side is [sale@90 remaining 1, sale@120 remaining 504] — the incoming
sale@90 is left resting, contradicting the claimed final book. -/
theorem claim_C2_scenario_fails :
    tradeView specCall5.2 = [(100, 1), (98, 2)] ∧
    bookView specCall5.1.purchaseOffers = [(98, 198)] ∧
    bookView specCall5.1.saleOffers = [(90, 1), (120, 504)] := by
  rw [specCall5, specTable4_eq]
  norm_num [addOffer, findTrades, findTradesPurchase, findTradesSale,
    insertPurchaseOffer, insertSaleOffer, performTrade, setHead, Trade.make,
    Offer.coerce, bigMin, bigRound_eq_floor, bookView, tradeView, specP1rest,
    specP2, specS1, specS3, sale_ne_purchase, purchase_eq_purchase]

/-- Claim C3 (no-cross postcondition) fails on the code at the §8 input:
after the fifth call the incoming sale@90 still heads the sale side with
remaining quantity 1 > 0 while the best purchase price is 98, and
90 ≤ 98 satisfies the crossing condition. -/
theorem claim_C3_no_cross_fails :
    (specCall5.1.saleOffers.head?).map Offer.price = some 90 ∧
    (specCall5.1.saleOffers.head?).map Offer.remainingQuantity = some 1 ∧
    (specCall5.1.saleOffers.head?).map Offer.date = some specS3.date ∧
    (specCall5.1.purchaseOffers.head?).map Offer.price = some 98 ∧
    ((0 : ℚ) < 1 ∧ (90 : ℚ) ≤ 98) := by
  rw [specCall5, specTable4_eq]
  norm_num [addOffer, findTrades, findTradesPurchase, findTradesSale,
    insertPurchaseOffer, insertSaleOffer, performTrade, setHead, Trade.make,
    Offer.coerce, bigMin, bigRound_eq_floor, specP1rest, specP2, specS1,
    specS3, sale_ne_purchase, purchase_eq_purchase]

/-- Claim C4 (sort invariant) fails on the code: after the five `addOffer`
calls of `c4seq` the sale-side price sequence is [4, 3, 4], which is not
sorted ascending.  (Call 4 leaves a stale purchase@4 with remaining 1
because of the start-of-call snapshot bug; call 5's trade application then
overwrites the sale-side head — sale@2 — with a copy of the incoming
sale@4, which also still rests at its insertion position.) -/
theorem claim_C4_sort_invariant_fails :
    ((runAdds (OfferTable.empty "X") c4seq).saleOffers).map Offer.price
        = [4, 3, 4] ∧
    ¬ List.Sorted (· ≤ ·)
        (((runAdds (OfferTable.empty "X") c4seq).saleOffers).map Offer.price) := by
  have h : ((runAdds (OfferTable.empty "X") c4seq).saleOffers).map Offer.price
      = [4, 3, 4] := by
    norm_num [c4seq, runAdds, addOffer, findTrades, findTradesPurchase,
      findTradesSale, insertPurchaseOffer, insertSaleOffer, performTrade,
      setHead, Trade.make, Offer.coerce, bigMin, bigRound_eq_floor,
      OfferTable.empty, c4a, c4b, c4c, c4d, c4e,
      sale_ne_purchase, purchase_eq_purchase]
  refine ⟨h, ?_⟩
  rw [h]
  intro hs
  have h43 := List.rel_of_sorted_cons hs 3 (by simp)
  norm_num at h43

/-- Claim C10's "rests in the book permanently" is false: the zero-quantity
sale@90 produces no trades and rests with remaining 0 after its own call,
but the next crossing `addOffer` emits a Trade{price=90, quantity=0}
against it and removes it from the book. -/
theorem claim_C10_counterexample :
    (addOffer (OfferTable.empty "X") zeroSale).2 = [] ∧
    bookView afterZeroSale.saleOffers = [(90, 0)] ∧
    tradeView (addOffer afterZeroSale crossingBuyer).2 = [(90, 0)] ∧
    bookView (addOffer afterZeroSale crossingBuyer).1.saleOffers = [] ∧
    bookView (addOffer afterZeroSale crossingBuyer).1.purchaseOffers
      = [(100, 5)] := by
  norm_num [afterZeroSale, addOffer, findTrades, findTradesPurchase,
    findTradesSale, insertPurchaseOffer, insertSaleOffer, performTrade,
    setHead, Trade.make, Offer.coerce, bigMin, bigRound_eq_floor,
    OfferTable.empty, bookView, tradeView, zeroSale, crossingBuyer,
    sale_ne_purchase, purchase_eq_purchase]

theorem findTradesPurchase_eq_nil {offer : Offer} {rem : ℚ} (h : ¬ 0 < rem) :
    ∀ l, findTradesPurchase offer rem l = []
  | [] => rfl
  | s :: rest => by
    simp only [findTradesPurchase]
    rw [if_neg]
    exact fun hc => h hc.2

theorem findTradesSale_eq_nil {offer : Offer} {rem : ℚ} (h : ¬ 0 < rem) :
    ∀ l, findTradesSale offer rem l = []
  | [] => rfl
  | p :: rest => by
    simp only [findTradesSale]
    rw [if_neg]
    exact fun hc => h hc.2

theorem self_mem_insertPurchaseOffer (offer : Offer) :
    ∀ l, offer ∈ insertPurchaseOffer offer l
  | [] => by simp [insertPurchaseOffer]
  | e :: rest => by
    simp only [insertPurchaseOffer]
    by_cases hc : e.price < offer.price
    · rw [if_pos hc]
      exact List.mem_cons_self _ _
    · rw [if_neg hc]
      exact List.mem_cons_of_mem _ (self_mem_insertPurchaseOffer offer rest)

theorem self_mem_insertSaleOffer (offer : Offer) :
    ∀ l, offer ∈ insertSaleOffer offer l
  | [] => by simp [insertSaleOffer]
  | e :: rest => by
    simp only [insertSaleOffer]
    by_cases hc : offer.price < e.price
    · rw [if_pos hc]
      exact List.mem_cons_self _ _
    · rw [if_neg hc]
      exact List.mem_cons_of_mem _ (self_mem_insertSaleOffer offer rest)

/-- Amended claim C10: `addOffer` inserts the incoming offer into its
side's list before any matching; an incoming offer with remaining
quantity 0 produces no trades in its own call and rests in the book with
remaining quantity 0 after that call (it may be removed by a later
`addOffer`'s trade application; removal happens only there). -/
theorem claim_C10_zero_quantity_rests (tbl : OfferTable) (offer : Offer)
    (h : offer.remainingQuantity = 0) :
    (addOffer tbl offer).2 = [] ∧
    (addOffer tbl offer).1 =
      (if offer.type = "purchase" then
        { tbl with purchaseOffers := insertPurchaseOffer offer tbl.purchaseOffers }
      else
        { tbl with saleOffers := insertSaleOffer offer tbl.saleOffers }) ∧
    (offer.type = "purchase" → offer ∈ (addOffer tbl offer).1.purchaseOffers) ∧
    (offer.type ≠ "purchase" → offer ∈ (addOffer tbl offer).1.saleOffers) := by
  have hrem : ¬ (0 : ℚ) < offer.remainingQuantity := by
    rw [h]
    exact lt_irrefl 0
  have key : addOffer tbl offer =
      ((if offer.type = "purchase" then
        { tbl with purchaseOffers := insertPurchaseOffer offer tbl.purchaseOffers }
      else
        { tbl with saleOffers := insertSaleOffer offer tbl.saleOffers }), []) := by
    by_cases hty : offer.type = "purchase"
    · simp only [addOffer, findTrades, hty, reduceIte,
        findTradesPurchase_eq_nil hrem, List.foldl_nil]
    · simp only [addOffer, findTrades, hty, reduceIte,
        findTradesSale_eq_nil hrem, List.foldl_nil]
  refine ⟨by rw [key], by rw [key], fun hty => ?_, fun hty => ?_⟩
  · rw [key]
    simp only [hty, reduceIte]
    exact self_mem_insertPurchaseOffer offer tbl.purchaseOffers
  · rw [key]
    simp only [if_neg hty]
    exact self_mem_insertSaleOffer offer tbl.saleOffers

/-- Witness for the amended claim C10 at the concrete zero-quantity sale. -/
theorem claim_C10_zero_quantity_rests_witness :
    (addOffer (OfferTable.empty "X") zeroSale).2 = [] ∧
    zeroSale ∈ (addOffer (OfferTable.empty "X") zeroSale).1.saleOffers := by
  have h := claim_C10_zero_quantity_rests (OfferTable.empty "X") zeroSale rfl
  exact ⟨h.1, h.2.2.2 (by intro hc; exact absurd hc (by simp [zeroSale]))⟩

theorem Offer.coerce_wellRounded (o : Offer) : o.coerce.WellRounded :=
  ⟨fixedAt_bigRound 2 o.price, fixedAt_bigRound 0 o.quantity,
    fixedAt_bigRound 0 o.remainingQuantity⟩

theorem Offer.coerce_price (o : Offer) : o.coerce.price = bigRound 2 o.price :=
  rfl

theorem Offer.coerce_remainingQuantity (o : Offer) :
    o.coerce.remainingQuantity = bigRound 0 o.remainingQuantity :=
  rfl

theorem Offer.coerce_price_eq {o : Offer} (h : o.WellRounded) :
    o.coerce.price = o.price :=
  bigRound_of_fixedAt h.1

theorem Offer.coerce_remainingQuantity_eq {o : Offer} (h : o.WellRounded) :
    o.coerce.remainingQuantity = o.remainingQuantity :=
  bigRound_of_fixedAt h.2.2

theorem make_wellRounded {ic ty : String} {d : ℕ} {p q : ℚ} {r : Option ℚ}
    {o : Offer} (h : Offer.make ic ty d p q r = Except.ok o) :
    o.WellRounded := by
  unfold Offer.make at h
  by_cases hv : Offer.validType ty
  · rw [if_pos hv] at h
    cases h
    exact ⟨fixedAt_bigRound 2 p, fixedAt_bigRound 0 q, fixedAt_bigRound 0 _⟩
  · rw [if_neg hv] at h
    cases h

theorem mem_insertPurchaseOffer {o offer : Offer} :
    ∀ {l : List Offer}, o ∈ insertPurchaseOffer offer l → o = offer ∨ o ∈ l
  | [], h => by
    simp [insertPurchaseOffer] at h
    exact Or.inl h
  | e :: rest, h => by
    simp only [insertPurchaseOffer] at h
    by_cases hc : e.price < offer.price
    · rw [if_pos hc] at h
      rcases List.mem_cons.mp h with h1 | h2
      · exact Or.inl h1
      · exact Or.inr h2
    · rw [if_neg hc] at h
      rcases List.mem_cons.mp h with h1 | h2
      · exact Or.inr (h1 ▸ List.mem_cons_self _ _)
      · rcases mem_insertPurchaseOffer h2 with h3 | h4
        · exact Or.inl h3
        · exact Or.inr (List.mem_cons_of_mem _ h4)

theorem mem_insertSaleOffer {o offer : Offer} :
    ∀ {l : List Offer}, o ∈ insertSaleOffer offer l → o = offer ∨ o ∈ l
  | [], h => by
    simp [insertSaleOffer] at h
    exact Or.inl h
  | e :: rest, h => by
    simp only [insertSaleOffer] at h
    by_cases hc : offer.price < e.price
    · rw [if_pos hc] at h
      rcases List.mem_cons.mp h with h1 | h2
      · exact Or.inl h1
      · exact Or.inr h2
    · rw [if_neg hc] at h
      rcases List.mem_cons.mp h with h1 | h2
      · exact Or.inr (h1 ▸ List.mem_cons_self _ _)
      · rcases mem_insertSaleOffer h2 with h3 | h4
        · exact Or.inl h3
        · exact Or.inr (List.mem_cons_of_mem _ h4)

theorem mem_setHead {o x : Offer} :
    ∀ {l : List Offer}, o ∈ setHead x l → o = x ∨ o ∈ l
  | [], h => by
    simp [setHead] at h
    exact Or.inl h
  | e :: rest, h => by
    simp only [setHead] at h
    rcases List.mem_cons.mp h with h1 | h2
    · exact Or.inl h1
    · exact Or.inr (List.mem_cons_of_mem _ h2)

theorem performTrade_wellRounded (tbl : OfferTable) (t : Trade)
    (h : tbl.WellRounded) : (performTrade tbl t).WellRounded := by
  obtain ⟨hsale, hpurchase⟩ := h
  constructor
  · intro o ho
    simp only [performTrade] at ho
    by_cases hz :
        (Offer.coerce { t.sale with
          remainingQuantity := t.sale.remainingQuantity - t.quantity
          }).remainingQuantity = 0
    · rw [if_pos hz] at ho
      exact hsale o (List.mem_of_mem_drop ho)
    · rw [if_neg hz] at ho
      rcases mem_setHead ho with h1 | h2
      · exact h1 ▸ Offer.coerce_wellRounded _
      · exact hsale o h2
  · intro o ho
    simp only [performTrade] at ho
    by_cases hz :
        (Offer.coerce { t.purchase with
          remainingQuantity := t.purchase.remainingQuantity - t.quantity
          }).remainingQuantity = 0
    · rw [if_pos hz] at ho
      exact hpurchase o (List.mem_of_mem_drop ho)
    · rw [if_neg hz] at ho
      rcases mem_setHead ho with h1 | h2
      · exact h1 ▸ Offer.coerce_wellRounded _
      · exact hpurchase o h2

theorem foldl_performTrade_wellRounded (trades : List Trade) :
    ∀ (tbl : OfferTable), tbl.WellRounded →
      (trades.foldl performTrade tbl).WellRounded := by
  induction trades with
  | nil => exact fun tbl h => h
  | cons t rest ih =>
    intro tbl h
    exact ih (performTrade tbl t) (performTrade_wellRounded tbl t h)

theorem addOffer_wellRounded (tbl : OfferTable) (offer : Offer)
    (h : tbl.WellRounded) (ho : offer.WellRounded) :
    (addOffer tbl offer).1.WellRounded := by
  obtain ⟨hsale, hpurchase⟩ := h
  simp only [addOffer]
  apply foldl_performTrade_wellRounded
  by_cases hty : offer.type = "purchase"
  · rw [if_pos hty]
    refine ⟨hsale, fun o hmem => ?_⟩
    rcases mem_insertPurchaseOffer hmem with h1 | h2
    · exact h1 ▸ ho
    · exact hpurchase o h2
  · rw [if_neg hty]
    refine ⟨fun o hmem => ?_, hpurchase⟩
    rcases mem_insertSaleOffer hmem with h1 | h2
    · exact h1 ▸ ho
    · exact hsale o h2

theorem runAdds_wellRounded :
    ∀ (os : List Offer) (tbl : OfferTable), tbl.WellRounded →
      (∀ o ∈ os, o.WellRounded) → (runAdds tbl os).WellRounded
  | [], tbl, h, _ => h
  | o :: os, tbl, h, hos => by
    simp only [runAdds]
    exact runAdds_wellRounded os (addOffer tbl o).1
      (addOffer_wellRounded tbl o h (hos o (List.mem_cons_self _ _)))
      fun x hx => hos x (List.mem_cons_of_mem _ hx)

theorem empty_wellRounded (ic : String) : (OfferTable.empty ic).WellRounded := by
  constructor
  · intro o ho
    simp [OfferTable.empty] at ho
  · intro o ho
    simp [OfferTable.empty] at ho

/-- Claim C8: constructing an Offer succeeds exactly when its type is one
of the two recognized values; otherwise the constructor throws
`Invalid offer type.` synchronously (in this embedding the `Except.error`
result carries no offer, so no partially-constructed offer is reachable),
and an omitted `remainingQuantity` defaults to `quantity`. -/
theorem claim_C8_offer_construction :
    ∀ (ic ty : String) (d : ℕ) (p q : ℚ) (r : Option ℚ),
      ((∃ o, Offer.make ic ty d p q r = Except.ok o) ↔ Offer.validType ty) ∧
      ((Offer.make ic ty d p q r = Except.error "Invalid offer type.") ↔
        ¬ Offer.validType ty) ∧
      Offer.make ic ty d p q none = Offer.make ic ty d p q (some q) := by
  intro ic ty d p q r
  by_cases hv : Offer.validType ty
  · refine ⟨⟨fun _ => hv, fun _ => ⟨_, by rw [Offer.make, if_pos hv]⟩⟩, ?_, rfl⟩
    constructor
    · intro he
      rw [Offer.make, if_pos hv] at he
      cases he
    · intro hnv
      exact absurd hv hnv
  · refine ⟨?_, ?_, rfl⟩
    · constructor
      · rintro ⟨o, ho⟩
        rw [Offer.make, if_neg hv] at ho
        cases ho
      · intro hval
        exact absurd hval hv
    · constructor
      · intro _
        exact hv
      · intro _
        rw [Offer.make, if_neg hv]

/-- Claim C9: the `Offer` constructor coerces price to 2 decimal places
and the quantities to whole units (big.js round mode 1, half away from
zero); `_performTrade` builds its replacement offers through the same
constructor, so every offer in any book reachable from well-rounded
submissions stays well rounded — no precision drift accumulates. -/
theorem claim_C9_constructor_rounding :
    (∀ (ic ty : String) (d : ℕ) (p q : ℚ) (r : Option ℚ) (o : Offer),
      Offer.make ic ty d p q r = Except.ok o →
        o.price = bigRound 2 p ∧ o.quantity = bigRound 0 q ∧
        o.remainingQuantity = bigRound 0 (r.getD q)) ∧
    (∀ (tbl : OfferTable) (t : Trade), tbl.WellRounded →
      (performTrade tbl t).WellRounded) ∧
    (∀ (ic : String) (os : List Offer), (∀ o ∈ os, o.WellRounded) →
      (runAdds (OfferTable.empty ic) os).WellRounded) := by
  refine ⟨?_, performTrade_wellRounded, ?_⟩
  · intro ic ty d p q r o h
    unfold Offer.make at h
    by_cases hv : Offer.validType ty
    · rw [if_pos hv] at h
      cases h
      exact ⟨rfl, rfl, rfl⟩
    · rw [if_neg hv] at h
      cases h
  · intro ic os hos
    exact runAdds_wellRounded os _ (empty_wellRounded ic) hos

/-- Witness for claim C9 at a concrete run. -/
theorem claim_C9_constructor_rounding_witness :
    (runAdds (OfferTable.empty "X") [specS3]).WellRounded := by
  refine claim_C9_constructor_rounding.2.2 "X" [specS3] ?_
  intro o ho
  rw [List.mem_singleton] at ho
  subst ho
  exact ⟨⟨9000, by norm_num [specS3]⟩, ⟨3, by norm_num [specS3]⟩,
    ⟨3, by norm_num [specS3]⟩⟩

theorem tradedBefore_zero (ts : List Trade) : tradedBefore ts 0 = 0 := by
  simp [tradedBefore]

theorem tradedBefore_succ (t : Trade) (ts : List Trade) (k : ℕ) :
    tradedBefore (t :: ts) (k + 1) = t.quantity + tradedBefore ts k := by
  simp [tradedBefore, List.take_succ_cons]

theorem findTradesP_facts :
    ∀ (l : List Offer) (offer : Offer) (rem : ℚ),
      (∀ o ∈ l, o.WellRounded) → FixedAt 0 rem →
      (∀ (k : ℕ) (t : Trade), (findTradesPurchase offer rem l)[k]? = some t →
        ∃ r, l[k]? = some r ∧
          t.price = r.price ∧
          r.price ≤ offer.price ∧
          0 < rem - tradedBefore (findTradesPurchase offer rem l) k ∧
          t.quantity =
            min (rem - tradedBefore (findTradesPurchase offer rem l) k)
              r.remainingQuantity ∧
          t.purchase = offer.coerce ∧ t.sale = r.coerce) ∧
      (∀ r, l[(findTradesPurchase offer rem l).length]? = some r →
        ¬ (r.price ≤ offer.price ∧
          0 < rem -
            tradedBefore (findTradesPurchase offer rem l)
              (findTradesPurchase offer rem l).length))
  | [] => by
    intro offer rem _ _
    constructor
    · intro k t ht
      simp [findTradesPurchase] at ht
    · intro r hr
      simp at hr
  | s :: rest => by
    intro offer rem hl hrem
    have hs : s.WellRounded := hl s (List.mem_cons_self _ _)
    by_cases hc : s.price ≤ offer.price ∧ 0 < rem
    · have hmin : bigMin rem s.remainingQuantity = min rem s.remainingQuantity :=
        bigMin_eq_min _ _
      have hqfix : FixedAt 0 (bigMin rem s.remainingQuantity) := by
        rw [hmin]
        exact fixedAt_min hrem hs.2.2
      have hT : findTradesPurchase offer rem (s :: rest) =
          Trade.make offer s (bigMin rem s.remainingQuantity) s.price ::
            findTradesPurchase offer (rem - bigMin rem s.remainingQuantity)
              rest := by
        simp only [findTradesPurchase]
        rw [if_pos hc]
      obtain ⟨ih1, ih2⟩ :=
        findTradesP_facts rest offer (rem - bigMin rem s.remainingQuantity)
          (fun o ho => hl o (List.mem_cons_of_mem _ ho)) (fixedAt_sub hrem hqfix)
      have htq : (Trade.make offer s (bigMin rem s.remainingQuantity)
          s.price).quantity = min rem s.remainingQuantity := by
        show bigRound 0 (bigMin rem s.remainingQuantity) = _
        rw [bigRound_of_fixedAt hqfix, hmin]
      have htp : (Trade.make offer s (bigMin rem s.remainingQuantity)
          s.price).price = s.price := by
        show bigRound 2 s.price = s.price
        exact bigRound_of_fixedAt hs.1
      constructor
      · intro k t ht
        rw [hT] at ht ⊢
        cases k with
        | zero =>
          rw [List.getElem?_cons_zero] at ht
          injection ht with ht
          subst ht
          refine ⟨s, List.getElem?_cons_zero, htp, hc.1, ?_, ?_, rfl, rfl⟩
          · rw [tradedBefore_zero, sub_zero]
            exact hc.2
          · rw [tradedBefore_zero, sub_zero]
            exact htq
        | succ k =>
          rw [List.getElem?_cons_succ] at ht
          obtain ⟨r, hr, hp1, hp2, hp3, hp4, hp5, hp6⟩ := ih1 k t ht
          have harith :
              rem - tradedBefore
                  (Trade.make offer s (bigMin rem s.remainingQuantity)
                      s.price ::
                    findTradesPurchase offer
                      (rem - bigMin rem s.remainingQuantity) rest) (k + 1) =
                rem - bigMin rem s.remainingQuantity -
                  tradedBefore
                    (findTradesPurchase offer
                      (rem - bigMin rem s.remainingQuantity) rest) k := by
            rw [tradedBefore_succ, htq, hmin]
            ring
          rw [List.getElem?_cons_succ, harith]
          exact ⟨r, hr, hp1, hp2, hp3, hp4, hp5, hp6⟩
      · intro r hr
        rw [hT] at hr ⊢
        rw [List.length_cons, List.getElem?_cons_succ] at hr
        have hstop := ih2 r hr
        intro hcon
        apply hstop
        refine ⟨hcon.1, ?_⟩
        have harith :
            rem - tradedBefore
                (Trade.make offer s (bigMin rem s.remainingQuantity) s.price ::
                  findTradesPurchase offer
                    (rem - bigMin rem s.remainingQuantity) rest)
                ((findTradesPurchase offer
                    (rem - bigMin rem s.remainingQuantity) rest).length + 1) =
              rem - bigMin rem s.remainingQuantity -
                tradedBefore
                  (findTradesPurchase offer
                    (rem - bigMin rem s.remainingQuantity) rest)
                  (findTradesPurchase offer
                    (rem - bigMin rem s.remainingQuantity) rest).length := by
          rw [tradedBefore_succ, htq, hmin]
          ring
        rw [List.length_cons, harith] at hcon
        exact hcon.2
    · have hT : findTradesPurchase offer rem (s :: rest) = [] := by
        simp only [findTradesPurchase]
        rw [if_neg hc]
      constructor
      · intro k t ht
        rw [hT] at ht
        simp at ht
      · intro r hr
        rw [hT] at hr ⊢
        rw [List.length_nil, List.getElem?_cons_zero] at hr
        injection hr with hr
        subst hr
        intro hcon
        apply hc
        refine ⟨hcon.1, ?_⟩
        have := hcon.2
        rw [List.length_nil, tradedBefore_zero, sub_zero] at this
        exact this

theorem findTradesS_facts :
    ∀ (l : List Offer) (offer : Offer) (rem : ℚ),
      (∀ o ∈ l, o.WellRounded) → FixedAt 0 rem →
      (∀ (k : ℕ) (t : Trade), (findTradesSale offer rem l)[k]? = some t →
        ∃ r, l[k]? = some r ∧
          t.price = r.price ∧
          offer.price ≤ r.price ∧
          0 < rem - tradedBefore (findTradesSale offer rem l) k ∧
          t.quantity =
            min (rem - tradedBefore (findTradesSale offer rem l) k)
              r.remainingQuantity ∧
          t.purchase = r.coerce ∧ t.sale = offer.coerce) ∧
      (∀ r, l[(findTradesSale offer rem l).length]? = some r →
        ¬ (offer.price ≤ r.price ∧
          0 < rem -
            tradedBefore (findTradesSale offer rem l)
              (findTradesSale offer rem l).length))
  | [] => by
    intro offer rem _ _
    constructor
    · intro k t ht
      simp [findTradesSale] at ht
    · intro r hr
      simp at hr
  | p :: rest => by
    intro offer rem hl hrem
    have hp_wr : p.WellRounded := hl p (List.mem_cons_self _ _)
    by_cases hc : offer.price ≤ p.price ∧ 0 < rem
    · have hmin : bigMin rem p.remainingQuantity = min rem p.remainingQuantity :=
        bigMin_eq_min _ _
      have hqfix : FixedAt 0 (bigMin rem p.remainingQuantity) := by
        rw [hmin]
        exact fixedAt_min hrem hp_wr.2.2
      have hT : findTradesSale offer rem (p :: rest) =
          Trade.make p offer (bigMin rem p.remainingQuantity) p.price ::
            findTradesSale offer (rem - bigMin rem p.remainingQuantity)
              rest := by
        simp only [findTradesSale]
        rw [if_pos hc]
      obtain ⟨ih1, ih2⟩ :=
        findTradesS_facts rest offer (rem - bigMin rem p.remainingQuantity)
          (fun o ho => hl o (List.mem_cons_of_mem _ ho)) (fixedAt_sub hrem hqfix)
      have htq : (Trade.make p offer (bigMin rem p.remainingQuantity)
          p.price).quantity = min rem p.remainingQuantity := by
        show bigRound 0 (bigMin rem p.remainingQuantity) = _
        rw [bigRound_of_fixedAt hqfix, hmin]
      have htp : (Trade.make p offer (bigMin rem p.remainingQuantity)
          p.price).price = p.price := by
        show bigRound 2 p.price = p.price
        exact bigRound_of_fixedAt hp_wr.1
      constructor
      · intro k t ht
        rw [hT] at ht ⊢
        cases k with
        | zero =>
          rw [List.getElem?_cons_zero] at ht
          injection ht with ht
          subst ht
          refine ⟨p, List.getElem?_cons_zero, htp, hc.1, ?_, ?_, rfl, rfl⟩
          · rw [tradedBefore_zero, sub_zero]
            exact hc.2
          · rw [tradedBefore_zero, sub_zero]
            exact htq
        | succ k =>
          rw [List.getElem?_cons_succ] at ht
          obtain ⟨r, hr, hq1, hq2, hq3, hq4, hq5, hq6⟩ := ih1 k t ht
          have harith :
              rem - tradedBefore
                  (Trade.make p offer (bigMin rem p.remainingQuantity)
                      p.price ::
                    findTradesSale offer
                      (rem - bigMin rem p.remainingQuantity) rest) (k + 1) =
                rem - bigMin rem p.remainingQuantity -
                  tradedBefore
                    (findTradesSale offer
                      (rem - bigMin rem p.remainingQuantity) rest) k := by
            rw [tradedBefore_succ, htq, hmin]
            ring
          rw [List.getElem?_cons_succ, harith]
          exact ⟨r, hr, hq1, hq2, hq3, hq4, hq5, hq6⟩
      · intro r hr
        rw [hT] at hr ⊢
        rw [List.length_cons, List.getElem?_cons_succ] at hr
        have hstop := ih2 r hr
        intro hcon
        apply hstop
        refine ⟨hcon.1, ?_⟩
        have harith :
            rem - tradedBefore
                (Trade.make p offer (bigMin rem p.remainingQuantity) p.price ::
                  findTradesSale offer
                    (rem - bigMin rem p.remainingQuantity) rest)
                ((findTradesSale offer
                    (rem - bigMin rem p.remainingQuantity) rest).length + 1) =
              rem - bigMin rem p.remainingQuantity -
                tradedBefore
                  (findTradesSale offer
                    (rem - bigMin rem p.remainingQuantity) rest)
                  (findTradesSale offer
                    (rem - bigMin rem p.remainingQuantity) rest).length := by
          rw [tradedBefore_succ, htq, hmin]
          ring
        rw [List.length_cons, harith] at hcon
        exact hcon.2
    · have hT : findTradesSale offer rem (p :: rest) = [] := by
        simp only [findTradesSale]
        rw [if_neg hc]
      constructor
      · intro k t ht
        rw [hT] at ht
        simp at ht
      · intro r hr
        rw [hT] at hr ⊢
        rw [List.length_nil, List.getElem?_cons_zero] at hr
        injection hr with hr
        subst hr
        intro hcon
        apply hc
        refine ⟨hcon.1, ?_⟩
        have := hcon.2
        rw [List.length_nil, tradedBefore_zero, sub_zero] at this
        exact this

theorem addOffer_trades (tbl : OfferTable) (offer : Offer) :
    (addOffer tbl offer).2 =
      (if offer.type = "purchase" then
        findTradesPurchase offer offer.remainingQuantity tbl.saleOffers
      else
        findTradesSale offer offer.remainingQuantity tbl.purchaseOffers) := by
  by_cases hty : offer.type = "purchase"
  · simp only [addOffer, findTrades, hty, reduceIte]
  · simp only [addOffer, findTrades, hty, reduceIte]

theorem setHead_head (x : Offer) : ∀ l, (setHead x l).head? = some x
  | [] => rfl
  | _ :: _ => rfl

/-- Claim C5: every trade emitted by `addOffer` on a book reachable from
well-rounded submissions takes its price from the resting opposite offer
it matched (the `k`-th trade matches the `k`-th opposite offer counted
from the head). -/
theorem claim_C5_price_from_resting_offer :
    ∀ (ic : String) (os : List Offer) (offer : Offer),
      (∀ o ∈ os, o.WellRounded) → offer.WellRounded →
      ∀ (k : ℕ) (t : Trade),
        ((addOffer (runAdds (OfferTable.empty ic) os) offer).2)[k]? = some t →
        ∃ r, (oppList (runAdds (OfferTable.empty ic) os) offer)[k]? = some r ∧
          t.price = r.price := by
  intro ic os offer hos hof k t ht
  have htbl : (runAdds (OfferTable.empty ic) os).WellRounded :=
    runAdds_wellRounded os _ (empty_wellRounded ic) hos
  rw [addOffer_trades] at ht
  unfold oppList
  by_cases hty : offer.type = "purchase"
  · rw [if_pos hty] at ht ⊢
    obtain ⟨r, hr, hprice, _⟩ :=
      (findTradesP_facts _ offer _ htbl.1 hof.2.2).1 k t ht
    exact ⟨r, hr, hprice⟩
  · rw [if_neg hty] at ht ⊢
    obtain ⟨r, hr, hprice, _⟩ :=
      (findTradesS_facts _ offer _ htbl.2 hof.2.2).1 k t ht
    exact ⟨r, hr, hprice⟩

/-- Witness for claim C5: purchase@100 rests, sale@100 arrives, the single
emitted trade carries the resting offer's price. -/
theorem claim_C5_price_from_resting_offer_witness :
    ∃ t, ((addOffer (runAdds (OfferTable.empty "X") [specP1]) specS2).2)[0]? =
        some t ∧
      ∃ r, (oppList (runAdds (OfferTable.empty "X") [specP1]) specS2)[0]? =
          some r ∧
        t.price = r.price := by
  have hlen :
      ((addOffer (runAdds (OfferTable.empty "X") [specP1]) specS2).2).length
        = 1 := by
    norm_num [runAdds, addOffer, findTrades, findTradesPurchase,
      findTradesSale, insertPurchaseOffer, insertSaleOffer, performTrade,
      setHead, Trade.make, Offer.coerce, bigMin, bigRound_eq_floor,
      OfferTable.empty, specP1, specS2, sale_ne_purchase,
      purchase_eq_purchase]
  have h0 :
      0 < ((addOffer (runAdds (OfferTable.empty "X") [specP1]) specS2).2).length := by
    rw [hlen]
    norm_num
  have hget := List.getElem?_eq_getElem h0
  refine ⟨_, hget,
    claim_C5_price_from_resting_offer "X" [specP1] specS2 ?_ ?_ 0 _ hget⟩
  · intro o ho
    rw [List.mem_singleton] at ho
    subst ho
    exact ⟨⟨10000, by norm_num [specP1]⟩, ⟨5, by norm_num [specP1]⟩,
      ⟨5, by norm_num [specP1]⟩⟩
  · exact ⟨⟨10000, by norm_num [specS2]⟩, ⟨4, by norm_num [specS2]⟩,
      ⟨4, by norm_num [specS2]⟩⟩

theorem findTradesP_quantity_fixed :
    ∀ (l : List Offer) (offer : Offer) (rem : ℚ) (t : Trade),
      t ∈ findTradesPurchase offer rem l → FixedAt 0 t.quantity
  | [], offer, rem, t, ht => by
    simp [findTradesPurchase] at ht
  | s :: rest, offer, rem, t, ht => by
    simp only [findTradesPurchase] at ht
    by_cases hc : s.price ≤ offer.price ∧ 0 < rem
    · rw [if_pos hc] at ht
      rcases List.mem_cons.mp ht with h1 | h2
      · rw [h1]
        exact fixedAt_bigRound 0 _
      · exact findTradesP_quantity_fixed rest offer _ t h2
    · rw [if_neg hc] at ht
      simp at ht

theorem findTradesS_quantity_fixed :
    ∀ (l : List Offer) (offer : Offer) (rem : ℚ) (t : Trade),
      t ∈ findTradesSale offer rem l → FixedAt 0 t.quantity
  | [], offer, rem, t, ht => by
    simp [findTradesSale] at ht
  | p :: rest, offer, rem, t, ht => by
    simp only [findTradesSale] at ht
    by_cases hc : offer.price ≤ p.price ∧ 0 < rem
    · rw [if_pos hc] at ht
      rcases List.mem_cons.mp ht with h1 | h2
      · rw [h1]
        exact fixedAt_bigRound 0 _
      · exact findTradesS_quantity_fixed rest offer _ t h2
    · rw [if_neg hc] at ht
      simp at ht

/-- Claim C6: matching scans the opposite side from its head (the `k`-th
trade matches the `k`-th opposite offer), only while the resting price
crosses the incoming price inclusively and the running remaining quantity
is positive; each trade's quantity is the minimum of the running remaining
quantity and the matched offer's remaining quantity, and the running
quantity is decremented by each trade's quantity (expressed through
`remainingBefore`); the scan stops exactly when the next offer fails the
crossing test or the running quantity is exhausted. -/
theorem claim_C6_scan_and_min :
    ∀ (ic : String) (os : List Offer) (offer : Offer),
      (∀ o ∈ os, o.WellRounded) → offer.WellRounded →
      (∀ (k : ℕ) (t : Trade),
        ((addOffer (runAdds (OfferTable.empty ic) os) offer).2)[k]? = some t →
        ∃ r, (oppList (runAdds (OfferTable.empty ic) os) offer)[k]? = some r ∧
          crossingCond offer r ∧
          0 < remainingBefore offer
              ((addOffer (runAdds (OfferTable.empty ic) os) offer).2) k ∧
          t.quantity =
            min (remainingBefore offer
                ((addOffer (runAdds (OfferTable.empty ic) os) offer).2) k)
              r.remainingQuantity) ∧
      (∀ r, (oppList (runAdds (OfferTable.empty ic) os) offer)[
            ((addOffer (runAdds (OfferTable.empty ic) os) offer).2).length]? =
            some r →
        ¬ (crossingCond offer r ∧
          0 < remainingBefore offer
              ((addOffer (runAdds (OfferTable.empty ic) os) offer).2)
              ((addOffer (runAdds (OfferTable.empty ic) os) offer).2).length)) := by
  intro ic os offer hos hof
  have htbl : (runAdds (OfferTable.empty ic) os).WellRounded :=
    runAdds_wellRounded os _ (empty_wellRounded ic) hos
  rw [addOffer_trades]
  unfold oppList crossingCond remainingBefore
  by_cases hty : offer.type = "purchase"
  · simp only [hty, reduceIte]
    obtain ⟨h1, h2⟩ :=
      findTradesP_facts (runAdds (OfferTable.empty ic) os).saleOffers offer
        offer.remainingQuantity htbl.1 hof.2.2
    constructor
    · intro k t ht
      obtain ⟨r, hr, _, hcross, hpos, hqty, _, _⟩ := h1 k t ht
      exact ⟨r, hr, hcross, hpos, hqty⟩
    · intro r hr
      exact h2 r hr
  · simp only [hty, reduceIte]
    obtain ⟨h1, h2⟩ :=
      findTradesS_facts (runAdds (OfferTable.empty ic) os).purchaseOffers offer
        offer.remainingQuantity htbl.2 hof.2.2
    constructor
    · intro k t ht
      obtain ⟨r, hr, _, hcross, hpos, hqty, _, _⟩ := h1 k t ht
      exact ⟨r, hr, hcross, hpos, hqty⟩
    · intro r hr
      exact h2 r hr

/-- Witness for claim C6 at the concrete one-trade run. -/
theorem claim_C6_scan_and_min_witness :
    ∃ t, ((addOffer (runAdds (OfferTable.empty "X") [specP1]) specS2).2)[0]? =
        some t ∧
      ∃ r, (oppList (runAdds (OfferTable.empty "X") [specP1]) specS2)[0]? =
          some r ∧
        crossingCond specS2 r ∧
        0 < remainingBefore specS2
            ((addOffer (runAdds (OfferTable.empty "X") [specP1]) specS2).2) 0 ∧
        t.quantity =
          min (remainingBefore specS2
              ((addOffer (runAdds (OfferTable.empty "X") [specP1]) specS2).2) 0)
            r.remainingQuantity := by
  have hlen :
      ((addOffer (runAdds (OfferTable.empty "X") [specP1]) specS2).2).length
        = 1 := by
    norm_num [runAdds, addOffer, findTrades, findTradesPurchase,
      findTradesSale, insertPurchaseOffer, insertSaleOffer, performTrade,
      setHead, Trade.make, Offer.coerce, bigMin, bigRound_eq_floor,
      OfferTable.empty, specP1, specS2, sale_ne_purchase,
      purchase_eq_purchase]
  have h0 :
      0 < ((addOffer (runAdds (OfferTable.empty "X") [specP1]) specS2).2).length := by
    rw [hlen]
    norm_num
  have hget := List.getElem?_eq_getElem h0
  refine ⟨_, hget,
    (claim_C6_scan_and_min "X" [specP1] specS2 ?_ ?_).1 0 _ hget⟩
  · intro o ho
    rw [List.mem_singleton] at ho
    subst ho
    exact ⟨⟨10000, by norm_num [specP1]⟩, ⟨5, by norm_num [specP1]⟩,
      ⟨5, by norm_num [specP1]⟩⟩
  · exact ⟨⟨10000, by norm_num [specS2]⟩, ⟨4, by norm_num [specS2]⟩,
      ⟨4, by norm_num [specS2]⟩⟩

/-- Claim C7: each trade of a call snapshots the incoming (aggressor)
offer with its remaining quantity as of the start of the call (never
reduced by the call's earlier trades), while the matched resting offer
(the `k`-th opposite offer, so each is matched at most once per call) is
snapshotted with its true remaining quantity; and `_performTrade` computes
the incoming side's replacement by subtracting only that single trade's
quantity from the start-of-call value. -/
theorem claim_C7_aggressor_snapshot_stale :
    ∀ (ic : String) (os : List Offer) (offer : Offer),
      (∀ o ∈ os, o.WellRounded) → offer.WellRounded →
      ∀ (k : ℕ) (t : Trade),
        ((addOffer (runAdds (OfferTable.empty ic) os) offer).2)[k]? = some t →
        (aggressorSnap offer t).remainingQuantity = offer.remainingQuantity ∧
        (∃ r, (oppList (runAdds (OfferTable.empty ic) os) offer)[k]? = some r ∧
          (restingSnap offer t).remainingQuantity = r.remainingQuantity) ∧
        ∀ tbl2 : OfferTable,
          (offer.remainingQuantity - t.quantity = 0 →
            sideList (performTrade tbl2 t) offer =
              (sideList tbl2 offer).drop 1) ∧
          (offer.remainingQuantity - t.quantity ≠ 0 →
            ((sideList (performTrade tbl2 t) offer).head?).map
                Offer.remainingQuantity =
              some (offer.remainingQuantity - t.quantity)) := by
  intro ic os offer hos hof k t ht
  have htbl : (runAdds (OfferTable.empty ic) os).WellRounded :=
    runAdds_wellRounded os _ (empty_wellRounded ic) hos
  rw [addOffer_trades] at ht
  unfold aggressorSnap restingSnap oppList sideList
  by_cases hty : offer.type = "purchase"
  · rw [if_pos hty] at ht
    simp only [hty, reduceIte]
    obtain ⟨r, hr, _, _, _, _, hpu, hsa⟩ :=
      (findTradesP_facts _ offer _ htbl.1 hof.2.2).1 k t ht
    have hqfix : FixedAt 0 t.quantity :=
      findTradesP_quantity_fixed _ offer _ t (List.getElem?_mem ht)
    have hrwr : r.WellRounded := htbl.1 r (List.getElem?_mem hr)
    have hpu_rem : t.purchase.remainingQuantity = offer.remainingQuantity := by
      rw [hpu]
      exact Offer.coerce_remainingQuantity_eq hof
    refine ⟨hpu_rem,
      ⟨r, hr, by rw [hsa]; exact Offer.coerce_remainingQuantity_eq hrwr⟩, ?_⟩
    intro tbl2
    have hnew :
        (Offer.coerce { t.purchase with
          remainingQuantity := t.purchase.remainingQuantity - t.quantity
          }).remainingQuantity = offer.remainingQuantity - t.quantity := by
      show bigRound 0 (t.purchase.remainingQuantity - t.quantity) = _
      rw [hpu_rem]
      exact bigRound_of_fixedAt (fixedAt_sub hof.2.2 hqfix)
    constructor
    · intro h0
      simp only [performTrade]
      rw [if_pos (hnew.trans h0)]
    · intro h0
      simp only [performTrade]
      rw [if_neg fun hz => h0 (hnew.symm.trans hz), setHead_head]
      rw [Option.map_some']
      exact congrArg some hnew
  · rw [if_neg hty] at ht
    simp only [hty, reduceIte]
    obtain ⟨r, hr, _, _, _, _, hpu, hsa⟩ :=
      (findTradesS_facts _ offer _ htbl.2 hof.2.2).1 k t ht
    have hqfix : FixedAt 0 t.quantity :=
      findTradesS_quantity_fixed _ offer _ t (List.getElem?_mem ht)
    have hrwr : r.WellRounded := htbl.2 r (List.getElem?_mem hr)
    have hsa_rem : t.sale.remainingQuantity = offer.remainingQuantity := by
      rw [hsa]
      exact Offer.coerce_remainingQuantity_eq hof
    refine ⟨hsa_rem,
      ⟨r, hr, by rw [hpu]; exact Offer.coerce_remainingQuantity_eq hrwr⟩, ?_⟩
    intro tbl2
    have hnew :
        (Offer.coerce { t.sale with
          remainingQuantity := t.sale.remainingQuantity - t.quantity
          }).remainingQuantity = offer.remainingQuantity - t.quantity := by
      show bigRound 0 (t.sale.remainingQuantity - t.quantity) = _
      rw [hsa_rem]
      exact bigRound_of_fixedAt (fixedAt_sub hof.2.2 hqfix)
    constructor
    · intro h0
      simp only [performTrade]
      rw [if_pos (hnew.trans h0)]
    · intro h0
      simp only [performTrade]
      rw [if_neg fun hz => h0 (hnew.symm.trans hz), setHead_head]
      rw [Option.map_some']
      exact congrArg some hnew

/-- Witness for claim C7 at the concrete one-trade run. -/
theorem claim_C7_aggressor_snapshot_stale_witness :
    ∃ t, ((addOffer (runAdds (OfferTable.empty "X") [specP1]) specS2).2)[0]? =
        some t ∧
      (aggressorSnap specS2 t).remainingQuantity = specS2.remainingQuantity ∧
      ∃ r, (oppList (runAdds (OfferTable.empty "X") [specP1]) specS2)[0]? =
          some r ∧
        (restingSnap specS2 t).remainingQuantity = r.remainingQuantity := by
  have hlen :
      ((addOffer (runAdds (OfferTable.empty "X") [specP1]) specS2).2).length
        = 1 := by
    norm_num [runAdds, addOffer, findTrades, findTradesPurchase,
      findTradesSale, insertPurchaseOffer, insertSaleOffer, performTrade,
      setHead, Trade.make, Offer.coerce, bigMin, bigRound_eq_floor,
      OfferTable.empty, specP1, specS2, sale_ne_purchase,
      purchase_eq_purchase]
  have h0 :
      0 < ((addOffer (runAdds (OfferTable.empty "X") [specP1]) specS2).2).length := by
    rw [hlen]
    norm_num
  have hget := List.getElem?_eq_getElem h0
  have hmain := claim_C7_aggressor_snapshot_stale "X" [specP1] specS2
    (by
      intro o ho
      rw [List.mem_singleton] at ho
      subst ho
      exact ⟨⟨10000, by norm_num [specP1]⟩, ⟨5, by norm_num [specP1]⟩,
        ⟨5, by norm_num [specP1]⟩⟩)
    ⟨⟨10000, by norm_num [specS2]⟩, ⟨4, by norm_num [specS2]⟩,
      ⟨4, by norm_num [specS2]⟩⟩ 0 _ hget
  exact ⟨_, hget, hmain.1, hmain.2.1⟩
